import Mathlib

/-!
Verification of the WindowEmperor subsystem (src/cascadia/WindowsTerminal).

The definitions below are a shallow embedding of the C++ source:
bytes are `Nat` values below 256, buffers are `List Nat`, the `(it, end)`
pointer pair of the deserializers becomes an index `it` into the buffer
with `end` the buffer length, and `throw std::out_of_range` becomes an
`Except` error value.  Machine integers are `Nat` with explicit bounds
(`uint32_t` values are below 4294967296, `wchar_t` values below 65536).
-/

/-! ## Handoff codec (serializeUint32 / serializeString / deserializeUint32 /
deserializeString / serializeHandoffPayload / deserializeHandoffPayload) -/

/-- Error outcomes of the deserializers.  The two `eof` constructors are the
two `throw std::out_of_range` sites of the source; `overRead` is reserved for
a read of a byte at or past the end of the buffer, which the source never
performs (theorem `deserializeHandoffPayload_ne_overRead`). -/
inductive DecodeError where
  | eofU32 : DecodeError
  | eofStr : DecodeError
  | overRead : DecodeError
  deriving DecidableEq, Repr

/-- The four little-endian bytes of a `uint32_t` value, as written by
`serializeUint32` (a `memcpy` of the 32-bit value on a little-endian target). -/
def u32Bytes (value : Nat) : List Nat :=
  [value % 256, value / 256 % 256, value / 65536 % 256, value / 16777216 % 256]

/-- The two little-endian bytes of one `wchar_t` (16-bit) code unit. -/
def wcharBytes (c : Nat) : List Nat :=
  [c % 256, c / 256 % 256]

/-- The raw bytes of a `std::wstring_view`: each 16-bit code unit in order,
little-endian. -/
def strBytes (s : List Nat) : List Nat :=
  s.flatMap wcharBytes

/-- `serializeUint32(out, value)`: appends the four bytes of `value` to `out`. -/
def serializeUint32 (out : List Nat) (value : Nat) : List Nat :=
  out ++ u32Bytes value

/-- `serializeString(out, str)`: appends a `uint32_t` length and the string
bytes.  `gsl::narrow<uint32_t>(str.size())` throws when the size does not fit
in 32 bits, modelled by `none`. -/
def serializeString (out : List Nat) (str : List Nat) : Option (List Nat) :=
  if str.length < 4294967296 then
    some (serializeUint32 out str.length ++ strBytes str)
  else
    none

/-- The `Handoff` struct: command line, environment block, working directory,
and the `show` field (named `showCmd` here because `show` is a Lean keyword). -/
structure Handoff where
  args : List Nat
  env : List Nat
  cwd : List Nat
  showCmd : Nat
  deriving DecidableEq, Repr

/-- `serializeHandoffPayload`: the three strings in order, then the raw
`uint32_t` show command.  The source reads `args`, `env`, `cwd` from the
process; here they are parameters. -/
def serializeHandoffPayload (args env cwd : List Nat) (nCmdShow : Nat) :
    Option (List Nat) := do
  let out ← serializeString [] args
  let out ← serializeString out env
  let out ← serializeString out cwd
  pure (serializeUint32 out nCmdShow)

/-- `deserializeUint32(it, end, val)`: fails when fewer than four bytes remain
(`end - it < sizeof(uint32_t)`), otherwise loads a little-endian 32-bit value
and advances the iterator by four. -/
def deserializeUint32 (buf : List Nat) (it : Nat) : Except DecodeError (Nat × Nat) :=
  if buf.length - it < 4 then
    .error .eofU32
  else
    match buf[it]?, buf[it + 1]?, buf[it + 2]?, buf[it + 3]? with
    | some b0, some b1, some b2, some b3 =>
      .ok (b0 + 256 * b1 + 65536 * b2 + 16777216 * b3, it + 4)
    | _, _, _, _ => .error .overRead

/-- Reads `count` 16-bit code units starting at `it`, two bytes each,
little-endian.  `none` would signal a read past the end of the buffer. -/
def readWchars (buf : List Nat) : Nat → Nat → Option (List Nat)
  | _, 0 => some []
  | it, count + 1 =>
    match buf[it]?, buf[it + 1]? with
    | some b0, some b1 =>
      (readWchars buf (it + 2) count).map (fun rest => (b0 + 256 * b1) :: rest)
    | _, _ => none

/-- `deserializeString(it, end, str)`: reads the `uint32_t` length prefixed to
the string, fails when the remaining bytes do not cover `len * sizeof(wchar_t)`
(`end - it < len * 2`), otherwise yields the string and the advanced iterator. -/
def deserializeString (buf : List Nat) (it : Nat) :
    Except DecodeError (List Nat × Nat) :=
  match deserializeUint32 buf it with
  | .error e => .error e
  | .ok (len, it') =>
    if buf.length - it' < len * 2 then
      .error .eofStr
    else
      match readWchars buf it' len with
      | some s => .ok (s, it' + len * 2)
      | none => .error .overRead

/-- `deserializeHandoffPayload(beg, end)`: the three strings in order, then the
show command; any step's `std::out_of_range` aborts the whole decode. -/
def deserializeHandoffPayload (buf : List Nat) : Except DecodeError Handoff :=
  match deserializeString buf 0 with
  | .error e => .error e
  | .ok (args, it1) =>
    match deserializeString buf it1 with
    | .error e => .error e
    | .ok (env, it2) =>
      match deserializeString buf it2 with
      | .error e => .error e
      | .ok (cwd, it3) =>
        match deserializeUint32 buf it3 with
        | .error e => .error e
        | .ok (sh, _) => .ok { args := args, env := env, cwd := cwd, showCmd := sh }

/-- A byte index shifted past a left append reads from the right list. -/
theorem byteAt_concat (pre l : List Nat) (k : Nat) :
    (pre ++ l)[pre.length + k]? = l[k]? := by
  rw [List.getElem?_append_right (by omega)]
  congr 1
  omega

theorem length_u32Bytes (v : Nat) : (u32Bytes v).length = 4 := rfl

theorem length_strBytes (s : List Nat) : (strBytes s).length = s.length * 2 := by
  induction s with
  | nil => rfl
  | cons c t ih => simp [strBytes, wcharBytes] at ih ⊢; omega

/-- Fewer than four bytes remain: `deserializeUint32` reports the bounds
violation of its first check. -/
theorem deserializeUint32_trunc (buf : List Nat) (it : Nat)
    (h : buf.length < it + 4) : deserializeUint32 buf it = .error .eofU32 := by
  unfold deserializeUint32
  rw [if_pos (by omega)]

/-- Reading the four bytes written by `serializeUint32` recovers the value. -/
theorem deserializeUint32_ok (buf pre rest : List Nat) (it v : Nat)
    (hv : v < 4294967296) (hbuf : buf = pre ++ u32Bytes v ++ rest)
    (hit : it = pre.length) :
    deserializeUint32 buf it = .ok (v, it + 4) := by
  subst hbuf hit
  have hb0 : (pre ++ u32Bytes v ++ rest)[pre.length]? = some (v % 256) := by
    have := byteAt_concat pre (u32Bytes v ++ rest) 0
    simpa [u32Bytes] using this
  have hb1 : (pre ++ u32Bytes v ++ rest)[pre.length + 1]? = some (v / 256 % 256) := by
    have := byteAt_concat pre (u32Bytes v ++ rest) 1
    simpa [u32Bytes] using this
  have hb2 : (pre ++ u32Bytes v ++ rest)[pre.length + 2]? = some (v / 65536 % 256) := by
    have := byteAt_concat pre (u32Bytes v ++ rest) 2
    simpa [u32Bytes] using this
  have hb3 : (pre ++ u32Bytes v ++ rest)[pre.length + 3]? = some (v / 16777216 % 256) := by
    have := byteAt_concat pre (u32Bytes v ++ rest) 3
    simpa [u32Bytes] using this
  have hlen : (pre ++ u32Bytes v ++ rest).length = pre.length + 4 + rest.length := by
    simp [u32Bytes]; omega
  unfold deserializeUint32
  rw [if_neg (by omega)]
  rw [hb0, hb1, hb2, hb3]
  simp only []
  simp
  omega

/-- `deserializeUint32` never reads a byte at or past the end of the buffer:
the bounds check precedes every read. -/
theorem deserializeUint32_ne_overRead (buf : List Nat) (it : Nat) :
    deserializeUint32 buf it ≠ .error .overRead := by
  unfold deserializeUint32
  by_cases h : buf.length - it < 4
  · rw [if_pos h]; simp
  · rw [if_neg h]
    have h0 : buf[it]? = some buf[it] := List.getElem?_eq_getElem (by omega)
    have h1 : buf[it + 1]? = some buf[it + 1] := List.getElem?_eq_getElem (by omega)
    have h2 : buf[it + 2]? = some buf[it + 2] := List.getElem?_eq_getElem (by omega)
    have h3 : buf[it + 3]? = some buf[it + 3] := List.getElem?_eq_getElem (by omega)
    rw [h0, h1, h2, h3]
    simp

/-- Reading back the bytes written by `strBytes` recovers every code unit. -/
theorem readWchars_ok (s : List Nat) : ∀ (pre rest : List Nat),
    (∀ c ∈ s, c < 65536) →
    readWchars (pre ++ strBytes s ++ rest) pre.length s.length = some s := by
  induction s with
  | nil => intro pre rest _; simp [readWchars]
  | cons c t ih =>
    intro pre rest hc
    have hsb : strBytes (c :: t) = c % 256 :: c / 256 % 256 :: strBytes t := by
      simp [strBytes, wcharBytes]
    have hb0 : (pre ++ strBytes (c :: t) ++ rest)[pre.length]? = some (c % 256) := by
      have := byteAt_concat pre (strBytes (c :: t) ++ rest) 0
      simpa [hsb] using this
    have hb1 : (pre ++ strBytes (c :: t) ++ rest)[pre.length + 1]? =
        some (c / 256 % 256) := by
      have := byteAt_concat pre (strBytes (c :: t) ++ rest) 1
      simpa [hsb] using this
    have hrec : readWchars (pre ++ strBytes (c :: t) ++ rest) (pre.length + 2)
        t.length = some t := by
      have hre : pre ++ strBytes (c :: t) ++ rest =
          (pre ++ [c % 256, c / 256 % 256]) ++ strBytes t ++ rest := by
        simp [hsb]
      have hlen : pre.length + 2 = (pre ++ [c % 256, c / 256 % 256]).length := by
        simp
      rw [hre, hlen]
      exact ih (pre ++ [c % 256, c / 256 % 256]) rest
        (fun x hx => hc x (List.mem_cons_of_mem _ hx))
    show readWchars _ pre.length (t.length + 1) = _
    unfold readWchars
    rw [hb0, hb1, hrec]
    have hcv : c < 65536 := hc c (List.mem_cons_self _ _)
    simp
    omega

/-- When the declared code units fit in the buffer, `readWchars` succeeds. -/
theorem readWchars_isSome (buf : List Nat) : ∀ (count it : Nat),
    it + count * 2 ≤ buf.length → (readWchars buf it count).isSome := by
  intro count
  induction count with
  | zero => intro it _; simp [readWchars]
  | succ n ih =>
    intro it h
    have h0 : buf[it]? = some buf[it] := List.getElem?_eq_getElem (by omega)
    have h1 : buf[it + 1]? = some buf[it + 1] := List.getElem?_eq_getElem (by omega)
    have hrec := ih (it + 2) (by omega)
    unfold readWchars
    rw [h0, h1]
    simpa using hrec

/-- Fewer than four bytes remain for the length: `deserializeString` fails
inside its `deserializeUint32` call. -/
theorem deserializeString_truncLen (buf : List Nat) (it : Nat)
    (h : buf.length < it + 4) : deserializeString buf it = .error .eofU32 := by
  unfold deserializeString
  rw [deserializeUint32_trunc buf it h]

/-- The length decodes but the remaining bytes do not cover `len * 2`:
`deserializeString` reports the bounds violation of its content check. -/
theorem deserializeString_truncContent (buf pre mid : List Nat) (it v : Nat)
    (hv : v < 4294967296) (hbuf : buf = pre ++ u32Bytes v ++ mid)
    (hit : it = pre.length) (hmid : mid.length < v * 2) :
    deserializeString buf it = .error .eofStr := by
  unfold deserializeString
  rw [deserializeUint32_ok buf pre mid it v hv hbuf hit]
  simp only []
  have hlen : buf.length = pre.length + 4 + mid.length := by
    subst hbuf; simp [u32Bytes]; omega
  rw [if_pos (by omega)]

/-- Reading back a string written by `serializeString` recovers it together
with the iterator advanced past its bytes. -/
theorem deserializeString_ok (buf pre rest s : List Nat) (it : Nat)
    (hs : s.length < 4294967296) (hc : ∀ c ∈ s, c < 65536)
    (hbuf : buf = pre ++ u32Bytes s.length ++ strBytes s ++ rest)
    (hit : it = pre.length) :
    deserializeString buf it = .ok (s, it + 4 + s.length * 2) := by
  unfold deserializeString
  rw [deserializeUint32_ok buf pre (strBytes s ++ rest) it s.length hs
    (by rw [hbuf]; simp) hit]
  simp only []
  have hlen : buf.length = pre.length + 4 + s.length * 2 + rest.length := by
    subst hbuf; simp [u32Bytes, length_strBytes]; omega
  rw [if_neg (by omega)]
  have hread : readWchars buf (it + 4) s.length = some s := by
    have hre : buf = (pre ++ u32Bytes s.length) ++ strBytes s ++ rest := by
      simp [hbuf]
    have hl : it + 4 = (pre ++ u32Bytes s.length).length := by
      simp [u32Bytes, hit]
    rw [hre, hl]
    exact readWchars_ok s (pre ++ u32Bytes s.length) rest hc
  rw [hread]

/-- `deserializeString` never reads a byte at or past the end of the buffer. -/
theorem deserializeString_ne_overRead (buf : List Nat) (it : Nat) :
    deserializeString buf it ≠ .error .overRead := by
  unfold deserializeString
  cases hu : deserializeUint32 buf it with
  | error e =>
    simp only []
    intro hcontra
    apply deserializeUint32_ne_overRead buf it
    rw [hu]
    injection hcontra with h
    rw [h]
  | ok p =>
    obtain ⟨len, it'⟩ := p
    simp only []
    by_cases hrem : buf.length - it' < len * 2
    · rw [if_pos hrem]; simp
    · rw [if_neg hrem]
      have hsome : (readWchars buf it' len).isSome := by
        by_cases hz : len = 0
        · subst hz; simp [readWchars]
        · apply readWchars_isSome; omega
      obtain ⟨s, hsv⟩ := Option.isSome_iff_exists.mp hsome
      rw [hsv]
      simp

/-- The full decoder never reads a byte at or past the end of the buffer. -/
theorem deserializeHandoffPayload_ne_overRead (buf : List Nat) :
    deserializeHandoffPayload buf ≠ .error .overRead := by
  unfold deserializeHandoffPayload
  cases h1 : deserializeString buf 0 with
  | error e =>
    simp only []
    intro hc
    apply deserializeString_ne_overRead buf 0
    rw [h1]
    injection hc with h
    rw [h]
  | ok p1 =>
    obtain ⟨a, it1⟩ := p1
    simp only []
    cases h2 : deserializeString buf it1 with
    | error e =>
      simp only []
      intro hc
      apply deserializeString_ne_overRead buf it1
      rw [h2]
      injection hc with h
      rw [h]
    | ok p2 =>
      obtain ⟨e2, it2⟩ := p2
      simp only []
      cases h3 : deserializeString buf it2 with
      | error e =>
        simp only []
        intro hc
        apply deserializeString_ne_overRead buf it2
        rw [h3]
        injection hc with h
        rw [h]
      | ok p3 =>
        obtain ⟨c3, it3⟩ := p3
        simp only []
        cases h4 : deserializeUint32 buf it3 with
        | error e =>
          simp only []
          intro hc
          apply deserializeUint32_ne_overRead buf it3
          rw [h4]
          injection hc with h
          rw [h]
        | ok p4 =>
          obtain ⟨sh, it4⟩ := p4
          simp

/-- C1: decoding the bytes produced by encoding a valid `HandoffPayload`
yields the payload back unchanged, field for field.  Validity: the three
strings are 16-bit code-unit sequences whose lengths fit `uint32_t`, and the
show command fits `uint32_t`. -/
theorem C1_handoff_roundtrip (args env cwd : List Nat) (showCmd : Nat)
    (enc : List Nat)
    (hargs : ∀ c ∈ args, c < 65536) (henv : ∀ c ∈ env, c < 65536)
    (hcwd : ∀ c ∈ cwd, c < 65536) (hshow : showCmd < 4294967296)
    (henc : serializeHandoffPayload args env cwd showCmd = some enc) :
    deserializeHandoffPayload enc =
      .ok { args := args, env := env, cwd := cwd, showCmd := showCmd } := by
  have ha : args.length < 4294967296 := by
    by_contra h
    simp [serializeHandoffPayload, serializeString, h] at henc
  have he : env.length < 4294967296 := by
    by_contra h
    simp [serializeHandoffPayload, serializeString, h] at henc
  have hc2 : cwd.length < 4294967296 := by
    by_contra h
    simp [serializeHandoffPayload, serializeString, h] at henc
  have henc' : enc = u32Bytes args.length ++ strBytes args ++
      (u32Bytes env.length ++ strBytes env ++
        (u32Bytes cwd.length ++ strBytes cwd ++ u32Bytes showCmd)) := by
    simp [serializeHandoffPayload, serializeString, serializeUint32,
      ha, he, hc2] at henc
    simp [← henc]
  have h1 : deserializeString enc 0 = .ok (args, 0 + 4 + args.length * 2) :=
    deserializeString_ok enc []
      (u32Bytes env.length ++ strBytes env ++
        (u32Bytes cwd.length ++ strBytes cwd ++ u32Bytes showCmd))
      args 0 ha hargs (by simp [henc']) rfl
  have h2 : deserializeString enc (0 + 4 + args.length * 2) =
      .ok (env, 0 + 4 + args.length * 2 + 4 + env.length * 2) :=
    deserializeString_ok enc (u32Bytes args.length ++ strBytes args)
      (u32Bytes cwd.length ++ strBytes cwd ++ u32Bytes showCmd)
      env (0 + 4 + args.length * 2) he henv (by simp [henc'])
      (by simp [u32Bytes, length_strBytes]; omega)
  have h3 : deserializeString enc (0 + 4 + args.length * 2 + 4 + env.length * 2) =
      .ok (cwd, 0 + 4 + args.length * 2 + 4 + env.length * 2 + 4 + cwd.length * 2) :=
    deserializeString_ok enc
      (u32Bytes args.length ++ strBytes args ++
        (u32Bytes env.length ++ strBytes env))
      (u32Bytes showCmd)
      cwd (0 + 4 + args.length * 2 + 4 + env.length * 2) hc2 hcwd
      (by simp [henc'])
      (by simp [u32Bytes, length_strBytes]; omega)
  have h4 : deserializeUint32 enc
      (0 + 4 + args.length * 2 + 4 + env.length * 2 + 4 + cwd.length * 2) =
      .ok (showCmd,
        0 + 4 + args.length * 2 + 4 + env.length * 2 + 4 + cwd.length * 2 + 4) :=
    deserializeUint32_ok enc
      (u32Bytes args.length ++ strBytes args ++
        (u32Bytes env.length ++ strBytes env) ++
        (u32Bytes cwd.length ++ strBytes cwd))
      [] _ showCmd hshow (by simp [henc'])
      (by simp [u32Bytes, length_strBytes]; omega)
  unfold deserializeHandoffPayload
  rw [h1]
  simp only []
  rw [h2]
  simp only []
  rw [h3]
  simp only []
  rw [h4]

/-- Witness for C1: the section-8 end-to-end scenario at concrete values,
command line "wt", environment block "A=1", working directory "C:\",
show command 1. -/
theorem C1_handoff_roundtrip_witness :
    deserializeHandoffPayload
      [2, 0, 0, 0, 119, 0, 116, 0,
       3, 0, 0, 0, 65, 0, 61, 0, 49, 0,
       3, 0, 0, 0, 67, 0, 58, 0, 92, 0,
       1, 0, 0, 0] =
      .ok { args := [119, 116], env := [65, 61, 49], cwd := [67, 58, 92],
            showCmd := 1 } :=
  C1_handoff_roundtrip [119, 116] [65, 61, 49] [67, 58, 92] 1 _
    (by decide) (by decide) (by decide) (by decide) (by rfl)

/-- Taking at least the whole left part of an append keeps it intact. -/
theorem take_append_full (P S : List Nat) (m : Nat) (h : P.length ≤ m) :
    (P ++ S).take m = P ++ S.take (m - P.length) := by
  rw [List.take_append_eq_append_take, List.take_of_length_le h]

/-- A string whose bytes are fully inside the truncation still decodes. -/
theorem deserializeString_ok_take (enc pre rest s : List Nat) (it m : Nat)
    (hs : s.length < 4294967296) (hc : ∀ c ∈ s, c < 65536)
    (henc : enc = pre ++ u32Bytes s.length ++ strBytes s ++ rest)
    (hit : it = pre.length) (hm : pre.length + 4 + s.length * 2 ≤ m) :
    deserializeString (enc.take m) it = .ok (s, it + 4 + s.length * 2) := by
  apply deserializeString_ok (enc.take m) pre
    (rest.take (m - (pre.length + 4 + s.length * 2))) s it hs hc ?_ hit
  have hsplit : enc = (pre ++ u32Bytes s.length ++ strBytes s) ++ rest := by
    simp [henc]
  have hplen : (pre ++ u32Bytes s.length ++ strBytes s).length =
      pre.length + 4 + s.length * 2 := by
    simp [u32Bytes, length_strBytes]; omega
  rw [hsplit, take_append_full _ _ m (by omega), hplen]

/-- A truncation that cuts inside a string's content bytes makes the decoder
fail its content bounds check. -/
theorem deserializeString_eofStr_take (enc pre rest : List Nat) (v it m : Nat)
    (hv : v < 4294967296) (henc : enc = pre ++ u32Bytes v ++ rest)
    (hit : it = pre.length) (hlow : pre.length + 4 ≤ m)
    (hhigh : m < pre.length + 4 + v * 2) :
    deserializeString (enc.take m) it = .error .eofStr := by
  apply deserializeString_truncContent (enc.take m) pre
    (rest.take (m - (pre.length + 4))) it v hv ?_ hit ?_
  · have hsplit : enc = (pre ++ u32Bytes v) ++ rest := by simp [henc]
    have hplen : (pre ++ u32Bytes v).length = pre.length + 4 := by
      simp [u32Bytes]
    rw [hsplit, take_append_full _ _ m (by omega), hplen]
  · simp [List.length_take]
    omega

/-- C2: decoding any strict prefix of a valid encoded payload fails with a
bounds-violation error (one of the two `std::out_of_range` throw sites, never
the over-read marker), and the decoder never reads a byte at or past the end
of any provided buffer. -/
theorem C2_truncation_safety (args env cwd : List Nat) (showCmd : Nat)
    (enc : List Nat)
    (hargs : ∀ c ∈ args, c < 65536) (henv : ∀ c ∈ env, c < 65536)
    (hcwd : ∀ c ∈ cwd, c < 65536)
    (henc : serializeHandoffPayload args env cwd showCmd = some enc) :
    (∀ m, m < enc.length →
      ∃ e, deserializeHandoffPayload (enc.take m) = .error e ∧
        e ≠ DecodeError.overRead) ∧
    ∀ buf : List Nat, deserializeHandoffPayload buf ≠ .error .overRead := by
  have ha : args.length < 4294967296 := by
    by_contra h
    simp [serializeHandoffPayload, serializeString, h] at henc
  have he : env.length < 4294967296 := by
    by_contra h
    simp [serializeHandoffPayload, serializeString, h] at henc
  have hc2 : cwd.length < 4294967296 := by
    by_contra h
    simp [serializeHandoffPayload, serializeString, h] at henc
  have henc' : enc = u32Bytes args.length ++ strBytes args ++
      (u32Bytes env.length ++ strBytes env ++
        (u32Bytes cwd.length ++ strBytes cwd ++ u32Bytes showCmd)) := by
    simp [serializeHandoffPayload, serializeString, serializeUint32,
      ha, he, hc2] at henc
    simp [← henc]
  have hL : enc.length =
      16 + args.length * 2 + env.length * 2 + cwd.length * 2 := by
    simp [henc', u32Bytes, length_strBytes]
    omega
  refine ⟨?_, deserializeHandoffPayload_ne_overRead⟩
  intro m hm
  have htl : (enc.take m).length = m := by
    simp [List.length_take]
    omega
  by_cases c1 : m < 4
  · -- cut inside the first length prefix
    have hf : deserializeString (enc.take m) 0 = .error .eofU32 :=
      deserializeString_truncLen _ 0 (by omega)
    exact ⟨.eofU32, by simp [deserializeHandoffPayload, hf], by decide⟩
  by_cases c2 : m < 4 + args.length * 2
  · -- cut inside the first string's content
    have hf : deserializeString (enc.take m) 0 = .error .eofStr :=
      deserializeString_eofStr_take enc []
        (strBytes args ++ (u32Bytes env.length ++ strBytes env ++
          (u32Bytes cwd.length ++ strBytes cwd ++ u32Bytes showCmd)))
        args.length 0 m ha (by simp [henc']) rfl (by simp; omega)
        (by simp; omega)
    exact ⟨.eofStr, by simp [deserializeHandoffPayload, hf], by decide⟩
  have h1ok : deserializeString (enc.take m) 0 = .ok (args, 0 + 4 + args.length * 2) :=
    deserializeString_ok_take enc []
      (u32Bytes env.length ++ strBytes env ++
        (u32Bytes cwd.length ++ strBytes cwd ++ u32Bytes showCmd))
      args 0 m ha hargs (by simp [henc']) rfl (by simp; omega)
  by_cases c3 : m < 8 + args.length * 2
  · -- cut inside the second length prefix
    have hf : deserializeString (enc.take m) (4 + args.length * 2) = .error .eofU32 :=
      deserializeString_truncLen _ _ (by omega)
    exact ⟨.eofU32, by simp [deserializeHandoffPayload, h1ok, hf], by decide⟩
  by_cases c4 : m < 8 + args.length * 2 + env.length * 2
  · -- cut inside the second string's content
    have hf : deserializeString (enc.take m) (4 + args.length * 2) = .error .eofStr :=
      deserializeString_eofStr_take enc (u32Bytes args.length ++ strBytes args)
        (strBytes env ++
          (u32Bytes cwd.length ++ strBytes cwd ++ u32Bytes showCmd))
        env.length (4 + args.length * 2) m he (by simp [henc'])
        (by simp [u32Bytes, length_strBytes]; omega)
        (by simp [u32Bytes, length_strBytes]; omega)
        (by simp [u32Bytes, length_strBytes]; omega)
    exact ⟨.eofStr, by simp [deserializeHandoffPayload, h1ok, hf], by decide⟩
  have h2ok : deserializeString (enc.take m) (4 + args.length * 2) =
      .ok (env, 4 + args.length * 2 + 4 + env.length * 2) :=
    deserializeString_ok_take enc (u32Bytes args.length ++ strBytes args)
      (u32Bytes cwd.length ++ strBytes cwd ++ u32Bytes showCmd)
      env (4 + args.length * 2) m he henv (by simp [henc'])
      (by simp [u32Bytes, length_strBytes]; omega)
      (by simp [u32Bytes, length_strBytes]; omega)
  by_cases c5 : m < 12 + args.length * 2 + env.length * 2
  · -- cut inside the third length prefix
    have hf : deserializeString (enc.take m)
        (4 + args.length * 2 + 4 + env.length * 2) = .error .eofU32 :=
      deserializeString_truncLen _ _ (by omega)
    exact ⟨.eofU32, by simp [deserializeHandoffPayload, h1ok, h2ok, hf], by decide⟩
  by_cases c6 : m < 12 + args.length * 2 + env.length * 2 + cwd.length * 2
  · -- cut inside the third string's content
    have hf : deserializeString (enc.take m)
        (4 + args.length * 2 + 4 + env.length * 2) = .error .eofStr :=
      deserializeString_eofStr_take enc
        (u32Bytes args.length ++ strBytes args ++
          (u32Bytes env.length ++ strBytes env))
        (strBytes cwd ++ u32Bytes showCmd)
        cwd.length (4 + args.length * 2 + 4 + env.length * 2) m hc2
        (by simp [henc'])
        (by simp [u32Bytes, length_strBytes]; omega)
        (by simp [u32Bytes, length_strBytes]; omega)
        (by simp [u32Bytes, length_strBytes]; omega)
    exact ⟨.eofStr, by simp [deserializeHandoffPayload, h1ok, h2ok, hf], by decide⟩
  have h3ok : deserializeString (enc.take m)
      (4 + args.length * 2 + 4 + env.length * 2) =
      .ok (cwd, 4 + args.length * 2 + 4 + env.length * 2 + 4 + cwd.length * 2) :=
    deserializeString_ok_take enc
      (u32Bytes args.length ++ strBytes args ++
        (u32Bytes env.length ++ strBytes env))
      (u32Bytes showCmd)
      cwd (4 + args.length * 2 + 4 + env.length * 2) m hc2 hcwd
      (by simp [henc'])
      (by simp [u32Bytes, length_strBytes]; omega)
      (by simp [u32Bytes, length_strBytes]; omega)
  -- cut inside the trailing show-command word
  have hf : deserializeUint32 (enc.take m)
      (4 + args.length * 2 + 4 + env.length * 2 + 4 + cwd.length * 2) =
      .error .eofU32 :=
    deserializeUint32_trunc _ _ (by omega)
  exact ⟨.eofU32, by simp [deserializeHandoffPayload, h1ok, h2ok, h3ok, hf],
    by decide⟩

/-- Witness for C2: the truncation-safety statement instantiated at the
concrete encoded payload of the section-8 scenario. -/
theorem C2_truncation_safety_witness :
    (∀ m, m < ([2, 0, 0, 0, 119, 0, 116, 0,
                3, 0, 0, 0, 65, 0, 61, 0, 49, 0,
                3, 0, 0, 0, 67, 0, 58, 0, 92, 0,
                1, 0, 0, 0] : List Nat).length →
      ∃ e, deserializeHandoffPayload
          (([2, 0, 0, 0, 119, 0, 116, 0,
             3, 0, 0, 0, 65, 0, 61, 0, 49, 0,
             3, 0, 0, 0, 67, 0, 58, 0, 92, 0,
             1, 0, 0, 0] : List Nat).take m) = .error e ∧
        e ≠ DecodeError.overRead) ∧
    ∀ buf : List Nat, deserializeHandoffPayload buf ≠ .error .overRead :=
  C2_truncation_safety [119, 116] [65, 61, 49] [67, 58, 92] 1 _
    (by decide) (by decide) (by decide) (by rfl)

/-! ## Shutdown coordination (_decrementWindowCount) and the warm loop of
_createNewWindowThread -/

/-- The fields of `WindowEmperor` that `_decrementWindowCount` reads:
`_windowThreadInstances` (a `std::atomic<uint32_t>`), `_quitting`, and
`_app.Logic().AllowHeadless()`. -/
structure ShutdownState where
  windowThreadInstances : Nat
  quitting : Bool
  allowHeadless : Bool
  deriving DecidableEq, Repr

/-- `_decrementWindowCount()`: `fetch_sub(1)` returns the previous counter
value (wrapping modulo 2^32 as `uint32_t` does), and `_close()` — which posts
exactly one quit message — runs when the previous value was 1 and either
`_quitting` is set or headless running is not allowed.  The second component
counts the quit signals issued by this call. -/
def decrementWindowCount (s : ShutdownState) : ShutdownState × Nat :=
  let quitWhenLastWindowExits := !s.allowHeadless
  let noMoreWindows := s.windowThreadInstances == 1
  let s' := { s with
    windowThreadInstances := (s.windowThreadInstances + 4294967295) % 4294967296 }
  (s', if noMoreWindows && (s.quitting || quitWhenLastWindowExits) then 1 else 0)

/-- The observable effects of the tail of one warm-loop iteration in the
window thread of `_createNewWindowThread`, after `RunMessagePump` returns. -/
inductive ThreadEvent where
  | removeWindow
  | refrigerate
  | decrementCount
  | pushFridge
  deriving DecidableEq, Repr

/-- The ordered effects the thread body performs after its pump exits, per
branch.  `wil::scope_exit(f).reset()` invokes `f` immediately and dismisses
the guard (`release()` would dismiss without invoking), so
`removeWindow.reset()` runs `_removeWindow` and `decrementWindowCount.reset()`
runs `_decrementWindowCount()` — the latter on BOTH branches: the Windows 11
branch (`decrementWindowCount.reset(); break`) and the refrigeration branch
(`window->Refrigerate(); decrementWindowCount.reset();` then the fridge
push).  Neither guard is still armed at scope exit. -/
def warmLoopIterationEvents (isWindows11 : Bool) : List ThreadEvent :=
  ThreadEvent.removeWindow ::
    (if isWindows11 then
      [ThreadEvent.decrementCount]
    else
      [ThreadEvent.refrigerate, ThreadEvent.decrementCount, ThreadEvent.pushFridge])

/-- Applies a list of thread events to the shutdown state; only
`decrementCount` touches the counter (it runs `_decrementWindowCount`).  The
second component accumulates quit signals. -/
def runThreadEvents (s : ShutdownState) (events : List ThreadEvent) :
    ShutdownState × Nat :=
  events.foldl
    (fun acc e =>
      match e with
      | ThreadEvent.decrementCount =>
        let r := decrementWindowCount acc.1
        (r.1, acc.2 + r.2)
      | _ => acc)
    (s, 0)

/-- Counterexample to C3 as stated: along the refrigeration branch of the warm
loop the live-window counter is NOT left unchanged — starting from counter 1,
the refrigeration branch ends with counter 0, because
`decrementWindowCount.reset()` runs `_decrementWindowCount()` on that branch
too. -/
theorem C3_refrigeration_keeps_counter_counterexample :
    ¬ ((runThreadEvents (⟨1, false, true⟩ : ShutdownState)
          (warmLoopIterationEvents false)).1.windowThreadInstances = 1) := by
  decide

/-- C3 (amended): every warm-loop iteration whose pump exits decrements the
live-window counter exactly once, on the refrigeration branch exactly as on
the terminal-teardown branch. -/
theorem C3_decrement_once_per_iteration (isWindows11 : Bool) (s : ShutdownState) :
    (warmLoopIterationEvents isWindows11).count ThreadEvent.decrementCount = 1 ∧
    (runThreadEvents s (warmLoopIterationEvents isWindows11)).1.windowThreadInstances =
      (s.windowThreadInstances + 4294967295) % 4294967296 := by
  cases isWindows11 <;>
    simp [warmLoopIterationEvents, runThreadEvents, decrementWindowCount,
      List.count_cons]

/-- C4: when the live-window counter transitions from 1 to 0, exactly one quit
signal is issued if `_quitting` is set or headless running is not allowed, and
none if headless is allowed and no quit was requested; a decrement whose
previous value is not 1 never issues a quit signal. -/
theorem C4_shutdown_arbitration (s : ShutdownState) :
    (s.windowThreadInstances = 1 →
      (decrementWindowCount s).1.windowThreadInstances = 0 ∧
      ((s.quitting = true ∨ s.allowHeadless = false) →
        (decrementWindowCount s).2 = 1) ∧
      (s.allowHeadless = true → s.quitting = false →
        (decrementWindowCount s).2 = 0)) ∧
    (s.windowThreadInstances ≠ 1 → (decrementWindowCount s).2 = 0) := by
  obtain ⟨count, quitting, allowHeadless⟩ := s
  constructor
  · intro h1
    simp only at h1
    subst h1
    cases quitting <;> cases allowHeadless <;>
      simp [decrementWindowCount]
  · intro hne
    simp only at hne
    cases quitting <;> cases allowHeadless <;>
      simp [decrementWindowCount, hne]

/-- Witness for C4: a 1-to-0 transition with headless disallowed issues one
quit signal and zeroes the counter; with headless allowed and no quit request
it issues none; a 5-to-4 decrement issues none. -/
theorem C4_shutdown_arbitration_witness :
    (decrementWindowCount (⟨1, false, false⟩ : ShutdownState)).1.windowThreadInstances = 0 ∧
    (decrementWindowCount (⟨1, false, false⟩ : ShutdownState)).2 = 1 ∧
    (decrementWindowCount (⟨1, false, true⟩ : ShutdownState)).2 = 0 ∧
    (decrementWindowCount (⟨5, false, true⟩ : ShutdownState)).2 = 0 :=
  ⟨((C4_shutdown_arbitration ⟨1, false, false⟩).1 rfl).1,
   ((C4_shutdown_arbitration ⟨1, false, false⟩).1 rfl).2.1 (Or.inr rfl),
   ((C4_shutdown_arbitration ⟨1, false, true⟩).1 rfl).2.2 rfl rfl,
   (C4_shutdown_arbitration ⟨5, false, true⟩).2 (by decide)⟩

/-! ## Window pool (_createNewWindowThread fridge handling) -/

/-- The outcome of a window request: reuse (`Microwave`) of a refrigerated
record, or the spawn of a new `std::thread`. -/
inductive PoolAction where
  | reheat (window : Nat)
  | spawnThread
  deriving DecidableEq, Repr

/-- The fridge step of `_createNewWindowThread`: `_oldWindows` is a vector
with the most recently refrigerated record at the back; a non-empty fridge
has its back record popped (`fridge->back()` then `fridge->pop_back()`) and
microwaved, and no thread is created; an empty fridge leads to `std::thread t{...}`. -/
def createNewWindowThread (fridge : List Nat) : List Nat × PoolAction :=
  match fridge.getLast? with
  | some window => (fridge.dropLast, PoolAction.reheat window)
  | none => (fridge, PoolAction.spawnThread)

/-- The refrigeration branch of the warm loop: `fridge->push_back(window)`. -/
def refrigerateWindow (fridge : List Nat) (window : Nat) : List Nat :=
  fridge ++ [window]

/-- Closing a sequence of windows refrigerates each in order. -/
def closeWindows (fridge : List Nat) (windows : List Nat) : List Nat :=
  windows.foldl refrigerateWindow fridge

/-- Issues `n` window requests in sequence, collecting the pool actions. -/
def requestWindows : Nat → List Nat → List Nat × List PoolAction
  | 0, fridge => (fridge, [])
  | n + 1, fridge =>
    let r := createNewWindowThread fridge
    let rest := requestWindows n r.1
    (rest.1, r.2 :: rest.2)

theorem closeWindows_eq (windows : List Nat) : ∀ fridge : List Nat,
    closeWindows fridge windows = fridge ++ windows := by
  induction windows with
  | nil => intro fridge; simp [closeWindows]
  | cons w ws ih =>
    intro fridge
    have := ih (fridge ++ [w])
    simp [closeWindows, refrigerateWindow, List.foldl_cons] at this ⊢
    simp [this]

theorem requestWindows_drain (windows : List Nat) :
    requestWindows windows.length windows =
      ([], windows.reverse.map PoolAction.reheat) := by
  induction windows using List.reverseRecOn with
  | nil => rfl
  | append_singleton ws w ih =>
    have hlen : (ws ++ [w]).length = ws.length + 1 := by simp
    rw [hlen]
    show (let r := createNewWindowThread (ws ++ [w])
          let rest := requestWindows ws.length r.1
          (rest.1, r.2 :: rest.2)) =
      ([], (ws ++ [w]).reverse.map PoolAction.reheat)
    have hcr : createNewWindowThread (ws ++ [w]) = (ws, PoolAction.reheat w) := by
      simp [createNewWindowThread]
    rw [hcr]
    simp [ih]

theorem requestWindows_one_more (windows : List Nat) :
    requestWindows (windows.length + 1) windows =
      ([], windows.reverse.map PoolAction.reheat ++ [PoolAction.spawnThread]) := by
  induction windows using List.reverseRecOn with
  | nil => rfl
  | append_singleton ws w ih =>
    have hlen : (ws ++ [w]).length + 1 = (ws.length + 1) + 1 := by simp
    rw [hlen]
    show (let r := createNewWindowThread (ws ++ [w])
          let rest := requestWindows (ws.length + 1) r.1
          (rest.1, r.2 :: rest.2)) =
      ([], (ws ++ [w]).reverse.map PoolAction.reheat ++ [PoolAction.spawnThread])
    have hcr : createNewWindowThread (ws ++ [w]) = (ws, PoolAction.reheat w) := by
      simp [createNewWindowThread]
    rw [hcr]
    simp [ih]

/-- C7: a request against a non-empty fridge pops exactly the most recently
refrigerated record and reheats it with no new thread; a request against an
empty fridge spawns exactly one new thread; hence closing W windows from an
empty pool and then issuing W requests reuses exactly those W records (most
recent first) with zero spawns, and a (W+1)-th request spawns exactly one new
thread. -/
theorem C7_pool_reuse :
    (∀ (fridge : List Nat) (w : Nat),
      createNewWindowThread (refrigerateWindow fridge w) =
        (fridge, PoolAction.reheat w)) ∧
    createNewWindowThread [] = ([], PoolAction.spawnThread) ∧
    (∀ windows : List Nat,
      requestWindows windows.length (closeWindows [] windows) =
        ([], windows.reverse.map PoolAction.reheat) ∧
      requestWindows (windows.length + 1) (closeWindows [] windows) =
        ([], windows.reverse.map PoolAction.reheat ++ [PoolAction.spawnThread])) := by
  refine ⟨?_, rfl, ?_⟩
  · intro fridge w
    simp [createNewWindowThread, refrigerateWindow]
  · intro windows
    rw [closeWindows_eq, List.nil_append]
    exact ⟨requestWindows_drain windows, requestWindows_one_more windows⟩

/-! ## Global hotkeys (_setupGlobalHotkeys) -/

/-- The OS-level calls performed by a hotkey resync: `_unregisterHotKey(i)`
and `_registerHotKey(i, keyChord)`. -/
inductive HotkeyEvent where
  | unregister (index : Nat)
  | register (index : Nat) (keyChord : Nat)
  deriving DecidableEq, Repr

/-- One entry of `_app.Logic().GlobalHotkeys()`: its key chord and the result
of `cmd.ActionAndArgs().Args().try_as<GlobalSummonArgs>()` (`none` when the
command's args are not `GlobalSummonArgs`; such entries are skipped). -/
structure GlobalHotkeyEntry where
  keyChord : Nat
  summonArgs : Option Nat
  deriving DecidableEq, Repr

/-- `_setupGlobalHotkeys` past the `_window` guard: unregister indices
0 .. `_hotkeys.size()` - 1, clear `_hotkeys`, then for each global-hotkey
entry carrying `GlobalSummonArgs` register it at index `_hotkeys.size()` and
append its summon args to `_hotkeys`.  Returns the ordered OS calls and the
new `_hotkeys` table. -/
def setupGlobalHotkeys (hotkeys : List Nat)
    (globalHotkeys : List GlobalHotkeyEntry) : List HotkeyEvent × List Nat :=
  let unregs := (List.range hotkeys.length).map HotkeyEvent.unregister
  globalHotkeys.foldl
    (fun acc entry =>
      match entry.summonArgs with
      | some summonArgs =>
        (acc.1 ++ [HotkeyEvent.register acc.2.length entry.keyChord],
         acc.2 ++ [summonArgs])
      | none => acc)
    (unregs, [])

/-- The entries of the global-hotkey list that carry `GlobalSummonArgs`, as
(key chord, summon args) pairs, in order. -/
def globalSummonBindings (globalHotkeys : List GlobalHotkeyEntry) :
    List (Nat × Nat) :=
  globalHotkeys.filterMap (fun e => e.summonArgs.map (fun s => (e.keyChord, s)))

theorem setupGlobalHotkeys_foldl (globalHotkeys : List GlobalHotkeyEntry) :
    ∀ (ev : List HotkeyEvent) (tbl : List Nat),
    globalHotkeys.foldl
      (fun acc entry =>
        match entry.summonArgs with
        | some summonArgs =>
          (acc.1 ++ [HotkeyEvent.register acc.2.length entry.keyChord],
           acc.2 ++ [summonArgs])
        | none => acc)
      (ev, tbl) =
    (ev ++ (List.enumFrom tbl.length (globalSummonBindings globalHotkeys)).map
        (fun p => HotkeyEvent.register p.1 p.2.1),
     tbl ++ (globalSummonBindings globalHotkeys).map Prod.snd) := by
  induction globalHotkeys with
  | nil => intro ev tbl; simp [globalSummonBindings]
  | cons e rest ih =>
    intro ev tbl
    cases hs : e.summonArgs with
    | none =>
      simp only [List.foldl_cons, hs]
      rw [ih ev tbl]
      simp [globalSummonBindings, List.filterMap_cons, hs]
    | some s =>
      simp only [List.foldl_cons, hs]
      rw [ih (ev ++ [HotkeyEvent.register tbl.length e.keyChord]) (tbl ++ [s])]
      simp [globalSummonBindings, List.filterMap_cons, hs, List.enumFrom]

/-- C5: a resync first unregisters exactly the indices 0 .. N-1 of the
previous table, then registers the current bindings in order at sequential
indices starting from 0, the final table being exactly the current bindings;
in particular resyncing from a one-binding table to two bindings performs one
unregister (index 0) and two registers (indices 0 and 1), leaving exactly the
two new bindings. -/
theorem C5_hotkey_resync (hotkeys : List Nat)
    (globalHotkeys : List GlobalHotkeyEntry) :
    (setupGlobalHotkeys hotkeys globalHotkeys).1 =
      (List.range hotkeys.length).map HotkeyEvent.unregister ++
        (List.enumFrom 0 (globalSummonBindings globalHotkeys)).map
          (fun p => HotkeyEvent.register p.1 p.2.1) ∧
    (setupGlobalHotkeys hotkeys globalHotkeys).2 =
      (globalSummonBindings globalHotkeys).map Prod.snd ∧
    setupGlobalHotkeys [100] [⟨1, some 200⟩, ⟨2, some 300⟩] =
      ([HotkeyEvent.unregister 0, HotkeyEvent.register 0 1,
        HotkeyEvent.register 1 2], [200, 300]) := by
  refine ⟨?_, ?_, by decide⟩ <;>
    · unfold setupGlobalHotkeys
      rw [setupGlobalHotkeys_foldl]
      simp

/-! ## Notification icon (_checkWindowsForNotificationIcon) -/

/-- The `Shell_NotifyIconW` operations the icon recompute can issue. -/
inductive IconOp where
  | add
  | setVersion
  | delete
  deriving DecidableEq, Repr

/-- `_checkWindowsForNotificationIcon` as a function of what it reads:
`_app.Logic().RequestsTrayIcon()`, each window's `IsQuakeWindow()`, and
`_notificationIconShown`.  `needsIcon` starts from the global setting and is
`|=`-folded over the windows; when it equals the remembered state the function
returns with no OS call, otherwise it shows (`NIM_ADD` + `NIM_SETVERSION`) or
hides (`NIM_DELETE`) the icon and remembers the new state. -/
def checkWindowsForNotificationIcon (requestsTrayIcon : Bool)
    (windows : List Bool) (notificationIconShown : Bool) : Bool × List IconOp :=
  let needsIcon := windows.foldl (fun acc isQuakeWindow => acc || isQuakeWindow)
    requestsTrayIcon
  if notificationIconShown == needsIcon then
    (notificationIconShown, [])
  else if needsIcon then
    (needsIcon, [IconOp.add, IconOp.setVersion])
  else
    (needsIcon, [IconOp.delete])

theorem foldl_or_eq (windows : List Bool) : ∀ g : Bool,
    windows.foldl (fun acc isQuakeWindow => acc || isQuakeWindow) g =
      (g || windows.any id) := by
  induction windows with
  | nil => intro g; simp
  | cons w ws ih =>
    intro g
    simp [List.foldl_cons, ih (g || w), Bool.or_assoc]

/-- C6: the recompute decides `globalAlwaysShow OR any window is a quake
window`, issues OS calls exactly when that decision differs from the
remembered state, and a second recompute with unchanged inputs issues no OS
call. -/
theorem C6_notification_icon_recompute (requestsTrayIcon : Bool)
    (windows : List Bool) (shown : Bool) :
    (checkWindowsForNotificationIcon requestsTrayIcon windows shown).1 =
      (requestsTrayIcon || windows.any id) ∧
    ((checkWindowsForNotificationIcon requestsTrayIcon windows shown).2 ≠ [] ↔
      shown ≠ (requestsTrayIcon || windows.any id)) ∧
    (checkWindowsForNotificationIcon requestsTrayIcon windows
        (checkWindowsForNotificationIcon requestsTrayIcon windows shown).1).2 = [] := by
  have hfold := foldl_or_eq windows requestsTrayIcon
  by_cases hsame : shown = (requestsTrayIcon || windows.any id)
  · subst hsame
    simp [checkWindowsForNotificationIcon, hfold]
  · cases hneed : (requestsTrayIcon || windows.any id) with
    | false =>
      rw [hneed] at hsame
      have hshown : shown = true := by
        cases shown
        · exact absurd rfl hsame
        · rfl
      subst hshown
      simp [checkWindowsForNotificationIcon, hfold, hneed]
    | true =>
      rw [hneed] at hsame
      have hshown : shown = false := by
        cases shown
        · rfl
        · exact absurd rfl hsame
      subst hshown
      simp [checkWindowsForNotificationIcon, hfold, hneed]

/-! ## Session persistence sweep (_finalizeSessionPersistence) -/

/-- The per-file outcome of the shutdown sweep over `buffer_*` files. -/
inductive FileAction where
  | keep
  | delete
  deriving DecidableEq, Repr

/-- The 36-character identifier embedded in a session-buffer file name:
`memcpy(&guidStr[1], name.data() + 7, 36 * sizeof(wchar_t))` copies the 36
code units after the 7-character `buffer_` lead-in (0-based positions
7 .. 42).  File names are lists of 16-bit code units. -/
def sessionFileIdentifier (name : List Nat) : List Nat :=
  (name.drop 7).take 36

/-- The per-file decision of `_finalizeSessionPersistence`: a name whose
length (`wcsnlen_s`) is not exactly 47 is skipped (`continue`); otherwise the
embedded identifier is compared against the persisted session-id set and the
file is removed when absent.  Modelled from the spec for the identifier
comparison: `Utils::GuidFromString` and the `sessionIds` set construction live
outside this repository slice, so per the spec's words the comparison is of
the embedded 36-character identifier against the currently-persisted session
set. -/
def sweepFileAction (sessionIds : List (List Nat)) (name : List Nat) :
    FileAction :=
  if name.length ≠ 47 then
    FileAction.keep
  else if sessionFileIdentifier name ∈ sessionIds then
    FileAction.keep
  else
    FileAction.delete

/-- C8: the sweep ignores every file whose name length is not exactly 47, and
for names of length 47 it deletes the file exactly when the embedded
36-character identifier (0-based positions 7 .. 42) is not in the persisted
session set. -/
theorem C8_persistence_sweep (sessionIds : List (List Nat)) (name : List Nat) :
    (name.length ≠ 47 → sweepFileAction sessionIds name = FileAction.keep) ∧
    (name.length = 47 →
      (sweepFileAction sessionIds name = FileAction.delete ↔
        sessionFileIdentifier name ∉ sessionIds)) := by
  constructor
  · intro h
    simp [sweepFileAction, h]
  · intro h
    by_cases hmem : sessionFileIdentifier name ∈ sessionIds
    · simp [sweepFileAction, h, hmem]
    · simp [sweepFileAction, h, hmem]

/-- Witness for C8: the sample file name
`buffer_FD40D746-163E-444C-B9B2-6A3EA2B26722.txt` (length 47) is deleted when
the session set is empty, and a three-character name is kept. -/
theorem C8_persistence_sweep_witness :
    sweepFileAction []
      [98, 117, 102, 102, 101, 114, 95, 70, 68, 52, 48, 68, 55, 52, 54, 45,
       49, 54, 51, 69, 45, 52, 52, 52, 67, 45, 66, 57, 66, 50, 45, 54, 65,
       51, 69, 65, 50, 66, 50, 54, 55, 50, 50, 46, 116, 120, 116] =
      FileAction.delete ∧
    sweepFileAction [] [1, 2, 3] = FileAction.keep :=
  ⟨((C8_persistence_sweep []
      [98, 117, 102, 102, 101, 114, 95, 70, 68, 52, 48, 68, 55, 52, 54, 45,
       49, 54, 51, 69, 45, 52, 52, 52, 67, 45, 66, 57, 66, 50, 45, 54, 65,
       51, 69, 65, 50, 66, 50, 54, 55, 50, 50, 46, 116, 120, 116]).2
      (by decide)).mpr (by decide),
   (C8_persistence_sweep [] [1, 2, 3]).1 (by decide)⟩

/-! ## Single-instance backoff loop (acquireMutexOrAttemptHandoff) -/

/-- The successive values of the loop variable of
`for (DWORD sleep = 50; sleep < 10000; sleep += sleep / 2)` in
`acquireMutexOrAttemptHandoff`, i.e. the durations passed to `Sleep` in order.
The extra `2 ≤ sleep` conjunct makes the recursion well-founded and is vacuous
on every reachable value: the loop starts at 50 and the value only grows. -/
def backoffSleeps (sleep : Nat) : List Nat :=
  if h : 2 ≤ sleep ∧ sleep < 10000 then
    sleep :: backoffSleeps (sleep + sleep / 2)
  else
    []
termination_by 10000 - sleep
decreasing_by omega

/-- The `uSendMessageTimeoutW` bound of the handoff delivery:
`SendMessageTimeoutW(..., SMTO_ABORTIFHUNG | SMTO_ERRORONEXIT, 10000, ...)`,
in milliseconds. -/
def handoffSendTimeoutMillis : Nat := 10000

theorem backoffSleeps_from_50 :
    backoffSleeps 50 = [50, 75, 112, 168, 252, 378, 567, 850, 1275, 1912,
      2868, 4302, 6453, 9679] := by
  simp [backoffSleeps]

/-- C9: the retry loop terminates with the concrete sleep sequence starting at
50ms, each subsequent sleep being the previous one plus its integer half, all
sleeps below the 10000ms loop cap, for a total sleep of 28941ms (roughly 30
seconds); the synchronous handoff send waits at most 10 seconds. -/
theorem C9_backoff_termination :
    backoffSleeps 50 = [50, 75, 112, 168, 252, 378, 567, 850, 1275, 1912,
      2868, 4302, 6453, 9679] ∧
    (backoffSleeps 50).head? = some 50 ∧
    List.Chain' (fun a b => b = a + a / 2) (backoffSleeps 50) ∧
    (∀ s ∈ backoffSleeps 50, s < 10000) ∧
    (backoffSleeps 50).sum = 28941 ∧
    (backoffSleeps 50).sum ≤ 30000 ∧
    handoffSendTimeoutMillis = 10000 := by
  have h := backoffSleeps_from_50
  refine ⟨h, by rw [h]; rfl, ?_, by rw [h]; decide, by rw [h]; rfl,
    by rw [h]; decide, rfl⟩
  rw [h]
  norm_num [List.chain'_cons]

/-! ## Hotkey dispatch (_hotkeyPressed) -/

/-- The guard and table access of `_hotkeyPressed(const long hotkeyIndex)`:
the source guard is
`if (hotkeyIndex < 0 || static_cast<size_t>(hotkeyIndex) > _hotkeys.size()) return;`
(for a negative `long` the `size_t` cast wraps to a huge value, which the
first disjunct already rejects), after which `til::at(_hotkeys, hotkeyIndex)`
reads the table.  Returns the position read, or `none` when the guard returns
early. -/
def hotkeyPressedAccess (hotkeys : List Nat) (hotkeyIndex : Int) : Option Nat :=
  if hotkeyIndex < 0 || hotkeys.length < hotkeyIndex.toNat then
    none
  else
    some hotkeyIndex.toNat

/-- C10 fails on the code: the guard uses `>` where the claimed bound needs
`>=`, so an index equal to `_hotkeys.size()` passes the guard and the handler
reads the table at position `size` — not strictly below the size.  Concretely,
with an empty table a `WM_HOTKEY` with id 0 reaches `til::at(_hotkeys, 0)`,
and with a one-entry table id 1 reaches `til::at(_hotkeys, 1)`;
`til::at` performs no bounds check of its own.  The general in-bounds
statement of the claim is therefore false. -/
theorem C10_hotkeyPressed_bounds_bug :
    hotkeyPressedAccess [] 0 = some 0 ∧
    hotkeyPressedAccess [7] 1 = some 1 ∧
    ¬ (∀ (hotkeys : List Nat) (i : Int) (p : Nat),
        hotkeyPressedAccess hotkeys i = some p → p < hotkeys.length) := by
  refine ⟨rfl, rfl, ?_⟩
  intro hall
  have := hall [] 0 0 rfl
  simp at this
